import Mathlib

/-!
Verification development for the Trendyol product-list comparison tool
(single source file `ds.py`).  The development shallowly embeds the two
algorithmic cores of the program:

* `fetch_products_from_trendyol` (ds.py lines 43-78): the paginated
  fetch-with-retry client.  HTTP responses of the mocked backend are modelled
  by `Resp`; the behaviour of the external `requests` library
  (`raise_for_status`, exception messages) is modelled where the source relies
  on it, with comments.  The `while True` loop is given explicit fuel; running
  out of fuel is a distinguished outcome (`fuelOut`) that never occurs on the
  inputs the theorems speak about.  Wall-clock sleeping is modelled by a trace
  of events (`FetchEvent`): one `request` event per HTTP request issued and one
  `sleep` event per `time.sleep` call, carrying the slept seconds.

* the reconciliation engine (`normalize_products_df`, `coerce_product_id`,
  `smart_merge_prev_current`, `build_diff_report`, `missing_df`,
  ds.py lines 81-186 and 266-268).  DataFrames are modelled by `DF`: a list of
  column names and a list of rows, each row a list of cells; a cell is
  `Option Val` with `none` playing the role of NaN/None.  The semantics of the
  pandas primitives the source calls (`pd.merge` with `how="left"`,
  `suffixes`, `indicator`; `astype(str)`; `pd.to_datetime` with
  `errors="coerce"`; `pd.api.types.is_object_dtype`) is embedded at the value
  level, with comments at each definition.
-/

/-! ### Values and cells (the dynamic scalars held by DataFrame cells) -/

/-- Scalar values a DataFrame cell can hold: strings, numbers (ints and floats
are modelled together as rationals), booleans and timestamps.  A missing value
(None/NaN/NaT) is modelled as `none` at the cell level. -/
inductive Val : Type where
  | str (s : String)
  | num (q : ℚ)
  | boolean (b : Bool)
  | timestamp (t : ℤ)
deriving DecidableEq, Repr

/-- One DataFrame cell; `none` is pandas NaN/None/NaT. -/
abbrev Cell := Option Val

/-! ### The paginated fetch client (ds.py lines 43-78) -/

/-- One mocked HTTP response: status code, reason phrase, body text, and the
joint result of `resp.json()` followed by `data.get("products", [])`
(ds.py lines 60-61): `Except.error m` models a body whose JSON decoding (or
`products` extraction) raises an exception with message `m`;
`Except.ok ps` models a JSON object from which the (possibly empty) products
list `ps` is extracted. -/
structure HttpResp (α : Type) where
  status : Nat
  reason : String
  body : String
  json : Except String (List α)

/-- What one attempt of `requests.get` produces: an HTTP response, or a
network-level `requests.exceptions.RequestException` with message `msg`. -/
inductive Resp (α : Type) where
  | http (r : HttpResp α)
  | exc (msg : String)

/-- Events of a fetch run: each HTTP request issued (page and attempt number),
and each `time.sleep`, with the slept seconds. -/
inductive FetchEvent : Type where
  | request (page : Nat) (attempt : Nat)
  | sleep (seconds : ℚ)
deriving DecidableEq, Repr

/-- Outcome of the per-page attempt loop (ds.py lines 51-70): a page of
products obtained (`success`), an error return from inside the loop (`fatal`),
or the `for` loop running out of attempts without `break`ing or returning
(`exhausted`), which in the source happens exactly when every remaining
attempt was answered with HTTP 429. -/
inductive PageOutcome (α : Type) where
  | success (products : List α)
  | fatal (err : String)
  | exhausted
deriving DecidableEq, Repr

/-- The request URL of ds.py line 50. -/
def apiUrl (sellerId : String) (page pageSize : Nat) : String :=
  "https://api.trendyol.com/integration/product/sellers/" ++ sellerId
    ++ "/products?page=" ++ toString page ++ "&size=" ++ toString pageSize

/-- Message of the HTTPError raised by `resp.raise_for_status()`; modelled
from the `requests` library, which formats it as
"<status> Client Error: <reason> for url: <url>" for 4xx and
"<status> Server Error: ..." for 5xx. -/
def statusErrMsg (status : Nat) (reason url : String) : String :=
  toString status ++ (if status < 500 then " Client Error: " else " Server Error: ")
    ++ reason ++ " for url: " ++ url

/-- The error string of ds.py line 68, wrapping a RequestException message. -/
def fetchErrMsg (m : String) : String :=
  "API\x27den ürünler çekilirken hata oluştu: " ++ m

/-- The error string of ds.py line 70, wrapping any other exception message. -/
def dataErrMsg (m : String) : String := "Veri işleme hatası: " ++ m

/-- Seconds slept by `time.sleep(1.5 * (attempt + 1))` (ds.py line 66). -/
def linear_sleep (attempt : Nat) : ℚ := (3 / 2 : ℚ) * ((attempt : ℚ) + 1)

/-- The per-page attempt loop `for attempt in range(max_retries)`
(ds.py lines 51-70).  `attempt` is the current 0-based attempt index,
`remaining` the number of attempts still available (initially 5 = max_retries).
For each attempt it issues a request.  HTTP 429 sleeps 2^attempt seconds and
retries (lines 54-58); `raise_for_status` turns a 400-599 status into a
RequestException, which sleeps 1.5*(attempt+1) seconds and retries unless this
was the last attempt, in which case the error return of line 68 fires; the
same happens for a network-level exception (lines 64-68); a JSON-processing
exception returns immediately (lines 69-70); otherwise the products list is
extracted and the loop breaks (lines 60-63). -/
def runAttempts {α : Type} (backend : Nat → Nat → Resp α) (sellerId : String)
    (pageSize page : Nat) : (attempt remaining : Nat) → PageOutcome α × List FetchEvent
  | _, 0 => (.exhausted, [])
  | attempt, remaining + 1 =>
    let ev := FetchEvent.request page attempt
    match backend page attempt with
    | .exc m =>
      if remaining = 0 then (.fatal (fetchErrMsg m), [ev])
      else
        let r := runAttempts backend sellerId pageSize page (attempt + 1) remaining
        (r.1, ev :: .sleep (linear_sleep attempt) :: r.2)
    | .http resp =>
      if resp.status = 429 then
        let r := runAttempts backend sellerId pageSize page (attempt + 1) remaining
        (r.1, ev :: .sleep ((2 : ℚ) ^ attempt) :: r.2)
      else if 400 ≤ resp.status ∧ resp.status ≤ 599 then
        if remaining = 0 then
          (.fatal (fetchErrMsg (statusErrMsg resp.status resp.reason
            (apiUrl sellerId page pageSize))), [ev])
        else
          let r := runAttempts backend sellerId pageSize page (attempt + 1) remaining
          (r.1, ev :: .sleep (linear_sleep attempt) :: r.2)
      else
        match resp.json with
        | .error m => (.fatal (dataErrMsg m), [ev])
        | .ok ps => (.success ps, [ev])

/-- Result of a whole fetch call: the returned pair `(all_products, error)`
(ds.py lines 68, 70, 77-78), an unhandled exception crashing the run, or
running out of the model's loop fuel. -/
inductive FetchOutcome (α : Type) where
  | returned (products : List α) (error : Option String)
  | crash (msg : String)
  | fuelOut
deriving DecidableEq, Repr

/-- Message of the unhandled exception hit when ds.py line 73 reads
`products_on_page` although no attempt of any page ever assigned it
(a Python UnboundLocalError/NameError; the run crashes). -/
def nameErrorMsg : String :=
  "NameError: local variable \x27products_on_page\x27 referenced before assignment"

/-- The `while True` page loop (ds.py lines 49-75) with explicit fuel.
`acc` is `all_products`; `products_on_page` is the latest value of the Python
variable of the same name, `none` while it is still unassigned.  After the
attempt loop, when a page of products was obtained it is accumulated and the
short-page check of line 73 is evaluated on it; when the attempt loop was
exhausted (all remaining attempts answered 429), line 73 reads the *stale*
`products_on_page` of the previous page - crashing if there is none, otherwise
silently moving on to the next page without accumulating anything. -/
def fetchLoop {α : Type} (backend : Nat → Nat → Resp α) (sellerId : String)
    (pageSize : Nat) : (fuel page : Nat) → (acc : List α) →
    (products_on_page : Option (List α)) → FetchOutcome α × List FetchEvent
  | 0, _, _, _ => (.fuelOut, [])
  | fuel + 1, page, acc, pop =>
    let r := runAttempts backend sellerId pageSize page 0 5
    match r.1 with
    | .fatal err => (.returned [] (some err), r.2)
    | .success ps =>
      if ps.length < pageSize then (.returned (acc ++ ps) none, r.2)
      else
        let rest := fetchLoop backend sellerId pageSize fuel (page + 1) (acc ++ ps) (some ps)
        (rest.1, r.2 ++ rest.2)
    | .exhausted =>
      match pop with
      | none => (.crash nameErrorMsg, r.2)
      | some prev_ps =>
        if prev_ps.length < pageSize then (.returned acc none, r.2)
        else
          let rest := fetchLoop backend sellerId pageSize fuel (page + 1) acc (some prev_ps)
          (rest.1, r.2 ++ rest.2)

/-- `fetch_products_from_trendyol(seller_id, headers, page_size)`
(ds.py lines 43-78), over a mocked backend mapping (page, attempt) to the
response of that attempt's `requests.get`.  The transport headers play no role
in the control flow and are not modelled; `fuel` bounds the number of page
iterations of the `while True` loop. -/
def fetch_products_from_trendyol {α : Type} (backend : Nat → Nat → Resp α)
    (sellerId : String) (pageSize fuel : Nat) : FetchOutcome α × List FetchEvent :=
  fetchLoop backend sellerId pageSize fuel 0 [] none

/-- A response that the attempt loop accepts as a successful page carrying
products `ps`: an HTTP response that is not 429, is not turned into an
HTTPError by `raise_for_status` (status outside 400-599), and whose JSON
yields `ps`. -/
def okWith {α : Type} (r : Resp α) (ps : List α) : Prop :=
  match r with
  | .http h => h.status ≠ 429 ∧ ¬(400 ≤ h.status ∧ h.status ≤ 599) ∧ h.json = .ok ps
  | .exc _ => False

theorem okWith_iff {α : Type} (r : Resp α) (ps : List α) :
    okWith r ps ↔ ∃ h : HttpResp α, r = .http h ∧ h.status ≠ 429
      ∧ ¬(400 ≤ h.status ∧ h.status ≤ 599) ∧ h.json = .ok ps := by
  cases r with
  | http h => simp [okWith]
  | exc m => simp [okWith]

theorem runAttempts_ok {α : Type} {backend : Nat → Nat → Resp α} {sellerId : String}
    {pageSize page : Nat} {ps : List α} (r : Nat)
    (h : okWith (backend page 0) ps) :
    runAttempts backend sellerId pageSize page 0 (r + 1) = (.success ps, [.request page 0]) := by
  rw [okWith_iff] at h
  obtain ⟨resp, hb, h1, h2, h3⟩ := h
  simp [runAttempts, hb, h1, h2, h3]

theorem request_range_shift (page e : Nat) :
    FetchEvent.request page 0 ::
        (List.range (e + 1)).map (fun i => FetchEvent.request (page + 1 + i) 0)
      = (List.range (e + 2)).map (fun i => FetchEvent.request (page + i) 0) := by
  rw [List.range_succ_eq_map (e + 1), List.map_cons, List.map_map, Nat.add_zero]
  refine congrArg _ (List.map_congr_left fun i _ => ?_)
  show FetchEvent.request (page + 1 + i) 0 = FetchEvent.request (page + Nat.succ i) 0
  rw [show page + 1 + i = page + Nat.succ i by omega]

theorem fetchLoop_all_ok {α : Type} (backend : Nat → Nat → Resp α) (sellerId : String)
    {n k : Nat} (hk : k < n) :
    ∀ (d : Nat), ∀ (page fuel : Nat) (acc : List α) (pop : Option (List α)),
    d < fuel →
    (∀ i, i < d → ∃ q, okWith (backend (page + i) 0) q ∧ q.length = n) →
    (∃ q, okWith (backend (page + d) 0) q ∧ q.length = k) →
    ∃ ps, fetchLoop backend sellerId n fuel page acc pop
        = (.returned ps none, (List.range (d + 1)).map (fun i => FetchEvent.request (page + i) 0))
      ∧ ps.length = acc.length + d * n + k := by
  intro d
  induction d with
  | zero =>
    intro page fuel acc pop hfuel _ hshort
    obtain ⟨q, hq, hlen⟩ := hshort
    rw [Nat.add_zero] at hq
    match fuel, hfuel with
    | fuel + 1, _ =>
      refine ⟨acc ++ q, ?_, by simp [hlen]⟩
      simp only [fetchLoop]
      rw [runAttempts_ok 4 hq]
      simp [hlen, hk, List.range_succ]
  | succ e ih =>
    intro page fuel acc pop hfuel hfull hshort
    obtain ⟨q0, hq0, hlen0⟩ := hfull 0 (Nat.succ_pos e)
    rw [Nat.add_zero] at hq0
    match fuel, hfuel with
    | fuel + 1, hfuel =>
      obtain ⟨ps, hps, hlen⟩ := ih (page + 1) fuel (acc ++ q0) (some q0) (by omega)
        (fun i hi => by
          have h := hfull (i + 1) (by omega)
          rwa [show page + (i + 1) = page + 1 + i by omega] at h)
        (by
          have h := hshort
          rwa [show page + (e + 1) = page + 1 + e by omega] at h)
      refine ⟨ps, ?_, ?_⟩
      · simp only [fetchLoop]
        rw [runAttempts_ok 4 hq0]
        simp only [hlen0, lt_self_iff_false, if_false, hps, Prod.mk.injEq, true_and]
        rw [List.singleton_append]
        exact request_range_shift page e
      · rw [hlen, List.length_append, hlen0, Nat.succ_mul]
        ring

/-- Claim C1: for every page size in the UI-allowed range (50-500, ds.py line
203) and every mocked backend whose first request of page p is answered, for
p < pages-1, with a page of exactly n records and, for p = pages-1, with a
final short page of k < n records, the fetch returns the accumulated
collection of length (pages-1)*n + k with no error, and the event trace is
exactly one request per page 0,...,pages-1 (no sleeps): after every page of
exactly n records the next page is requested, and the short page alone
terminates the loop. -/
theorem fetch_paginates_until_short_page {α : Type} (backend : Nat → Nat → Resp α)
    (sellerId : String) (n pages k fuel : Nat)
    (_hn_lo : 50 ≤ n) (_hn_hi : n ≤ 500) (hk : k < n) (hpages : 0 < pages)
    (hfuel : pages ≤ fuel)
    (hfull : ∀ p, p + 1 < pages → ∃ q, okWith (backend p 0) q ∧ q.length = n)
    (hshort : ∃ q, okWith (backend (pages - 1) 0) q ∧ q.length = k) :
    ∃ ps, fetch_products_from_trendyol backend sellerId n fuel
        = (.returned ps none, (List.range pages).map (fun p => FetchEvent.request p 0))
      ∧ ps.length = (pages - 1) * n + k := by
  obtain ⟨d, rfl⟩ : ∃ d, pages = d + 1 := ⟨pages - 1, by omega⟩
  have h := fetchLoop_all_ok backend sellerId hk d 0 fuel [] none
    (by omega)
    (fun i hi => by simpa using hfull i (by omega))
    (by simpa using hshort)
  simpa [fetch_products_from_trendyol] using h

/-- Concrete backend for the C1 witness: page 0 holds 50 records, page 1 a
short page of 7. -/
def c1Backend : Nat → Nat → Resp Nat := fun p _ =>
  .http ⟨200, "OK", "", .ok (if p = 0 then List.range 50 else List.range 7)⟩

theorem fetch_paginates_until_short_page_witness :
    ∃ ps : List Nat, fetch_products_from_trendyol c1Backend "seller" 50 2
        = (.returned ps none, (List.range 2).map (fun p => FetchEvent.request p 0))
      ∧ ps.length = (2 - 1) * 50 + 7 :=
  fetch_paginates_until_short_page c1Backend "seller" 50 2 7 2
    (by decide) (by decide) (by decide) (by decide) (by decide)
    (fun p hp => by
      have hp0 : p = 0 := by omega
      subst hp0
      exact ⟨List.range 50, ⟨by decide, by decide, rfl⟩, by simp⟩)
    ⟨List.range 7, ⟨by decide, by decide, rfl⟩, by simp⟩

/-- Concrete backend refuting claim C2: attempt 0 of a page is answered 404,
every later attempt 200 with an empty products list. -/
def c2Backend : Nat → Nat → Resp Nat := fun _ a =>
  if a = 0 then .http ⟨404, "Not Found", "the response body", .ok []⟩
  else .http ⟨200, "OK", "", .ok []⟩

/-- Claim C2 counterexample: a 404 on the first attempt of page 0 does NOT
abort the fetch.  The page is retried after a linear-backoff sleep and the
whole fetch succeeds with no error: the trace shows a second request of the
same page following the 404. -/
theorem fetch_404_is_retried_not_aborted :
    fetch_products_from_trendyol c2Backend "seller" 200 1
      = (.returned [] none,
         [.request 0 0, .sleep (linear_sleep 0), .request 0 1]) := rfl

/-- Claim C2 (amended): a non-429 4xx/5xx response is handled like any
network exception (ds.py lines 59, 64-68): the page is retried with linear
backoff 1.5*(attempt+1) seconds up to the 5-attempt budget, and only after
all 5 attempts fail does the fetch return a failure.  The failure message
wraps the HTTPError text, which names the HTTP status and the URL; it is
independent of the response body and carries no prefix of it (body and JSON
below are arbitrary and absent from the result). -/
theorem fetch_http_error_retries_then_fails {α : Type} (code : Nat)
    (reason body sellerId : String) (j : Except String (List α)) (n fuel : Nat)
    (h1 : 400 ≤ code) (h2 : code ≤ 599) (h3 : code ≠ 429) :
    fetch_products_from_trendyol (fun _ _ => .http ⟨code, reason, body, j⟩)
        sellerId n (fuel + 1)
      = (.returned [] (some (fetchErrMsg (statusErrMsg code reason (apiUrl sellerId 0 n)))),
         [.request 0 0, .sleep (linear_sleep 0), .request 0 1, .sleep (linear_sleep 1),
          .request 0 2, .sleep (linear_sleep 2), .request 0 3, .sleep (linear_sleep 3),
          .request 0 4]) := by
  have hcond : 400 ≤ code ∧ code ≤ 599 := ⟨h1, h2⟩
  simp [fetch_products_from_trendyol, fetchLoop, runAttempts, h3, hcond]

theorem fetch_http_error_retries_then_fails_witness :
    fetch_products_from_trendyol
        (fun _ _ => .http ⟨404, "Not Found", "some body", .ok ([] : List Nat)⟩)
        "seller" 200 (0 + 1)
      = (.returned [] (some (fetchErrMsg (statusErrMsg 404 "Not Found" (apiUrl "seller" 0 200)))),
         [.request 0 0, .sleep (linear_sleep 0), .request 0 1, .sleep (linear_sleep 1),
          .request 0 2, .sleep (linear_sleep 2), .request 0 3, .sleep (linear_sleep 3),
          .request 0 4]) :=
  fetch_http_error_retries_then_fails 404 "Not Found" "some body" "seller" (.ok []) 200 0
    (by decide) (by decide) (by decide)

/-- Backend answering 429 on every attempt of every page. -/
def c3Backend429 : Nat → Nat → Resp Nat := fun _ _ =>
  .http ⟨429, "Too Many Requests", "", .ok []⟩

/-- Backend answering 429 on attempt 0 and a short 200 page on later
attempts. -/
def c3BackendRecover : Nat → Nat → Resp Nat := fun _ a =>
  if a = 0 then .http ⟨429, "Too Many Requests", "", .ok []⟩
  else .http ⟨200, "OK", "", .ok [7]⟩

/-- Claim C3, evaluated on the code.  First conjunct (the bug): when every
attempt of page 0 is answered 429, the attempt loop is exhausted WITHOUT
returning an error: ds.py line 73 then reads the never-assigned
`products_on_page` and the run crashes with a NameError instead of returning
a rate-limit error.  The trace shows the five requests with exponential
backoff sleeps 1, 2, 4, 8, 16 seconds.  Second conjunct (the part of the
claim the code does satisfy): a 429 followed by a 200 on the retry yields a
successful result with no error after a 2^0-second backoff sleep. -/
theorem fetch_all_429_crashes_instead_of_error :
    (fetch_products_from_trendyol c3Backend429 "seller" 200 1
      = (.crash nameErrorMsg,
         [.request 0 0, .sleep ((2 : ℚ) ^ 0), .request 0 1, .sleep ((2 : ℚ) ^ 1),
          .request 0 2, .sleep ((2 : ℚ) ^ 2), .request 0 3, .sleep ((2 : ℚ) ^ 3),
          .request 0 4, .sleep ((2 : ℚ) ^ 4)]))
    ∧ (fetch_products_from_trendyol c3BackendRecover "seller" 200 1
      = (.returned [7] none,
         [.request 0 0, .sleep ((2 : ℚ) ^ 0), .request 0 1])) :=
  ⟨rfl, rfl⟩

theorem fetchLoop_error_empty {α : Type} {backend : Nat → Nat → Resp α} {sellerId : String}
    {pageSize : Nat} :
    ∀ (fuel page : Nat) (acc : List α) (pop : Option (List α)) (ps : List α) (err : String)
      (tr : List FetchEvent),
    fetchLoop backend sellerId pageSize fuel page acc pop = (.returned ps (some err), tr) →
    ps = [] := by
  intro fuel
  induction fuel with
  | zero => intro page acc pop ps err tr h; simp [fetchLoop] at h
  | succ fuel ih =>
    intro page acc pop ps err tr h
    simp only [fetchLoop] at h
    split at h
    · simp only [Prod.mk.injEq, FetchOutcome.returned.injEq] at h
      exact h.1.1.symm
    · split at h
      · simp at h
      · simp only [Prod.mk.injEq] at h
        exact ih _ _ _ _ _ _ (Prod.ext h.1 rfl)
    · split at h
      · simp at h
      · split at h
        · simp at h
        · simp only [Prod.mk.injEq] at h
          exact ih _ _ _ _ _ _ (Prod.ext h.1 rfl)

/-- Claim C4 (amended, first half): whenever the fetch returns with a non-nil
error, the returned record collection is the empty one of ds.py line 68/70 -
any previously accumulated pages are discarded. -/
theorem fetch_error_implies_empty_products {α : Type} (backend : Nat → Nat → Resp α)
    (sellerId : String) (pageSize fuel : Nat) (ps : List α) (err : String)
    (tr : List FetchEvent)
    (h : fetch_products_from_trendyol backend sellerId pageSize fuel
      = (.returned ps (some err), tr)) :
    ps = [] :=
  fetchLoop_error_empty fuel 0 [] none ps err tr h

theorem fetch_error_implies_empty_products_witness : ([] : List Nat) = [] :=
  fetch_error_implies_empty_products (fun _ _ => .exc "connection reset") "seller" 200 1
    [] (fetchErrMsg "connection reset")
    [.request 0 0, .sleep (linear_sleep 0), .request 0 1, .sleep (linear_sleep 1),
     .request 0 2, .sleep (linear_sleep 2), .request 0 3, .sleep (linear_sleep 3),
     .request 0 4]
    rfl

/-- Page contents held by the backend of the C4 counterexample. -/
def c4PageData : Nat → List Nat := fun p =>
  if p = 0 then [10, 11] else if p = 1 then [55, 56] else [99]

/-- Backend of the C4 counterexample: page 1 is rate-limited on all five
attempts the client will make (its data [55, 56] is never delivered); every
other request succeeds. -/
def c4SkipBackend : Nat → Nat → Resp Nat := fun p a =>
  if p = 1 && a ≤ 4 then .http ⟨429, "Too Many Requests", "", .ok []⟩
  else .http ⟨200, "OK", "", .ok (c4PageData p)⟩

/-- Claim C4 counterexample (second half of the claim): with page size 2, the
fetch returns [10, 11, 99] with NO error although page 1 failed unrecovered -
the trace shows its five rate-limited attempts - and its records [55, 56]
were never accumulated: a partially accumulated collection presented as a
success.  (After the exhausted attempt loop, ds.py line 73 compares the STALE
previous page against the page size and moves on, silently skipping the
failed page.) -/
theorem fetch_429_exhaustion_skips_page_partial_success :
    fetch_products_from_trendyol c4SkipBackend "seller" 2 3
      = (.returned [10, 11, 99] none,
         [.request 0 0,
          .request 1 0, .sleep ((2 : ℚ) ^ 0), .request 1 1, .sleep ((2 : ℚ) ^ 1),
          .request 1 2, .sleep ((2 : ℚ) ^ 2), .request 1 3, .sleep ((2 : ℚ) ^ 3),
          .request 1 4, .sleep ((2 : ℚ) ^ 4),
          .request 2 0]) := rfl

/-! ### DataFrames and the reconciliation engine (ds.py lines 81-186, 266) -/

/-- A DataFrame at the value level: ordered column labels and rows, each row
one cell per column. -/
structure DF where
  cols : List String
  data : List (List Cell)
deriving DecidableEq, Repr

/-- Well-formedness of a frame: every row has one cell per column (always
true of a real pandas DataFrame; the model type does not enforce it). -/
def DF.wf (df : DF) : Prop := ∀ r ∈ df.data, r.length = df.cols.length

/-- Index of the first column labelled c. -/
def colIdx (c : String) : List String → Option Nat
  | [] => none
  | x :: xs => if x = c then some 0 else (colIdx c xs).map (· + 1)

/-- row.get(c): the cell of a row under column label c, None when the column
is absent (model of pandas row.get with default None, as used on ds.py
lines 171, 175-176). -/
def getCell (cols : List String) (row : List Cell) (c : String) : Cell :=
  match colIdx c cols with
  | some i => row[i]?.getD none
  | none => none

/-- Python str() of a scalar as applied by astype(str); float formatting is
modelled only to the extent the development's values need. -/
def pyStr : Val → String
  | .str s => s
  | .num q => if q.den = 1 then toString q.num else toString q
  | .boolean b => if b then "True" else "False"
  | .timestamp t => toString t

/-- pandas Series.astype(str) on one cell: NaN/None renders as the string
"nan"; every other value becomes its str(). -/
def astype_str_cell : Cell → Cell
  | none => some (.str "nan")
  | some v => some (.str (pyStr v))

/-- The identity-key column label. -/
def keyCol : String := "productContentId"

/-- coerce_product_id (ds.py lines 111-116): if the productContentId column
exists, replace it cellwise by its string form; otherwise leave the frame
alone.  In the source the column assignment happens IN PLACE on the argument
frame; the resulting value of the caller's object is recorded by
`smart_merge_effects` below. -/
def coerce_product_id (df : DF) : DF :=
  match colIdx keyCol df.cols with
  | none => df
  | some j =>
    { df with data := df.data.map (fun r => r.set j (astype_str_cell (r.getD j none))) }

/-- DataFrame.rename of one column label (ds.py line 139); relabels every
matching column, data untouched, and returns a new frame. -/
def DF.rename (df : DF) (old nu : String) : DF :=
  { df with cols := df.cols.map (fun c => if c = old then nu else c) }

/-- The synonym list of ds.py line 130. -/
def alt_keys : List String := ["productContentId", "contentId", "productId", "id"]

/-- The error message of ds.py line 137. -/
def merge_err_msg : String :=
  "Yüklediğiniz Excel\x27de \x27productContentId\x27 ya da muadili bir anahtar sütun bulunamadı. Lütfen şablonu kullanın veya sütunu ekleyin."

/-- The key-resolution step of smart_merge_prev_current (ds.py lines
128-139): keep the frame when it has productContentId; otherwise rename the
first synonym found; otherwise fail. -/
def resolve_key (df_prev : DF) : Option DF :=
  if keyCol ∈ df_prev.cols then some df_prev
  else
    match alt_keys.find? (fun k => df_prev.cols.contains k) with
    | some k => some (df_prev.rename k keyCol)
    | none => none

/-- Membership tag produced by indicator=True; right_only cannot occur in a
left join. -/
inductive MergeTag where
  | both
  | left_only
deriving DecidableEq, Repr

/-- Column labels of pd.merge(prev, cur, on="productContentId", how="left",
suffixes=("_prev", "_current")): the left frame's columns in order with
overlapping non-key labels suffixed "_prev", then the right frame's non-key
columns with overlapping labels suffixed "_current"; the key appears once,
unsuffixed, at its left position. -/
def merged_cols (pc cc : List String) : List String :=
  pc.map (fun c => if c ≠ keyCol ∧ c ∈ cc then c ++ "_prev" else c)
    ++ (cc.filter (fun c => c != keyCol)).map
        (fun c => if c ∈ pc then c ++ "_current" else c)

/-- One output row of the left merge: the left row's cells in order, then one
cell per non-key right column - the matched right row's cell, or NaN for a
left-only row. -/
def merged_row (_pc cc : List String) (l : List Cell) (r : Option (List Cell)) : List Cell :=
  l ++ (cc.filter (fun c => c != keyCol)).map (fun c =>
    match r with
    | none => none
    | some rr => getCell cc rr c)

/-- The merged frame: the indicator is kept apart from the cells rather than
as a literal _merge column (build_diff_report's tracked columns never look at
it). -/
structure Merged where
  cols : List String
  data : List (List Cell × MergeTag)
deriving DecidableEq, Repr

/-- pd.merge(df_prev, df_current, on="productContentId", how="left",
suffixes=("_prev", "_current"), indicator=True) (ds.py lines 144-151): each
left row, in order, pairs with every right row carrying an equal key value
(tag both); a left row with no match yields one NaN-padded row (tag
left_only); right-only rows are dropped.  pandas matches equal NaN keys too;
after coercion the key column holds no NaN anyway. -/
def pd_merge_left (prev cur : DF) : Merged :=
  { cols := merged_cols prev.cols cur.cols,
    data := prev.data.flatMap (fun l =>
      let kv := getCell prev.cols l keyCol
      match cur.data.filter (fun r => getCell cur.cols r keyCol == kv) with
      | [] => [(merged_row prev.cols cur.cols l none, MergeTag.left_only)]
      | ms => ms.map (fun r => (merged_row prev.cols cur.cols l (some r), MergeTag.both))) }

/-- smart_merge_prev_current (ds.py lines 126-152): resolve the identity key,
coerce both key columns to strings, left-merge with indicator; an
unresolvable key returns an empty frame with the error message of
line 137. -/
def smart_merge_prev_current (df_prev df_current : DF) : Merged × Option String :=
  match resolve_key df_prev with
  | none => ({ cols := [], data := [] }, some merge_err_msg)
  | some p =>
    (pd_merge_left (coerce_product_id p) (coerce_product_id df_current), none)

/-- Values of the caller's two argument frames after smart_merge_prev_current
returns (ds.py lines 141-142 with Python assignment semantics):
coerce_product_id assigns the stringified key column into its argument in
place, so a previous frame that already had the key column is mutated, as is
the current frame; a previous frame whose key was resolved through a synonym
is left unchanged, because the rename of line 139 produced a fresh frame that
received the coercion instead; on the error path nothing was coerced. -/
def smart_merge_effects (df_prev df_current : DF) : DF × DF :=
  match resolve_key df_prev with
  | none => (df_prev, df_current)
  | some _ =>
    ((if keyCol ∈ df_prev.cols then coerce_product_id df_prev else df_prev),
     coerce_product_id df_current)

/-- missing_df (ds.py line 266): the merged rows whose indicator is
left_only. -/
def missing_df (m : Merged) : List (List Cell) :=
  (m.data.filter (fun x => x.2 == MergeTag.left_only)).map (fun x => x.1)

/-- First components of the default comparable_cols tuples of
build_diff_report (ds.py lines 158-167). -/
def tracked_cols : List String :=
  ["barcode", "title", "salePrice", "listPrice", "currencyType", "vatRate",
   "approved", "quantity"]

/-- The per-field test of ds.py lines 177-179: skip when both sides are NaN;
record a difference when exactly one side is NaN, or when the values
differ. -/
def cell_changed (p c : Cell) : Bool :=
  if p.isNone && c.isNone then false
  else (p.isNone && !c.isNone) || (!p.isNone && c.isNone) || p != c

/-- One entry of the diffs list (ds.py lines 171-182): the row's key and, for
each changed column, the (previous, current) pair under that column name. -/
structure DiffRow where
  productContentId : Cell
  changes : List (String × Cell × Cell)
deriving DecidableEq, Repr

/-- The body of build_diff_report's row loop for one row (ds.py lines
171-182). -/
def row_diffs (cols : List String) (row : List Cell) (comparable : List String) : DiffRow :=
  { productContentId := getCell cols row keyCol,
    changes := comparable.filterMap (fun c =>
      let p := getCell cols row (c ++ "_prev")
      let cu := getCell cols row (c ++ "_current")
      if cell_changed p cu then some (c, p, cu) else none) }

/-- build_diff_report (ds.py lines 155-186) with its default comparable_cols
(the only way the app calls it, line 268): one DiffRow per merged row having
at least one changed tracked field, in row order. -/
def build_diff_report (m : Merged) : List DiffRow :=
  m.data.filterMap (fun x =>
    let d := row_diffs m.cols x.1 tracked_cols
    if d.changes.isEmpty then none else some d)

/-- desired_cols (ds.py lines 83-97). -/
def desired_cols : List String :=
  ["productContentId", "barcode", "title", "brand", "stockCode", "listPrice",
   "salePrice", "currencyType", "vatRate", "stockUnitType", "quantity",
   "approved", "lastUpdateDate"]

/-- The loop of ds.py lines 99-101: append each desired column that is
missing as an all-None column (new columns land after the existing ones, in
desired order). -/
def add_missing_cols (df : DF) : DF :=
  { cols := df.cols ++ desired_cols.filter (fun c => !(df.cols.contains c)),
    data := df.data.map (fun r =>
      r ++ (desired_cols.filter (fun c => !(df.cols.contains c))).map (fun _ => none)) }

/-- The cells of one column. -/
def col_cells (df : DF) (c : String) : List Cell :=
  df.data.map (fun r => getCell df.cols r c)

/-- pd.api.types.is_object_dtype of a column (ds.py line 104), modelled at
the value level: a column holding any string (or a boolean mixed with other
values) is stored with object dtype; all-numeric, all-timestamp and all-NaN
columns are not.  (A freshly None-assigned column is object-dtyped in real
pandas, but converting an all-None column is the identity, so this model
choice is value-invisible; a pure bool column, which pandas stores as bool
dtype, is a corner no claim exercises.) -/
def is_object_dtype (cells : List Cell) : Bool :=
  cells.any (fun x =>
    match x with
    | some (.str _) => true
    | some (.boolean _) => true
    | _ => false)

/-- pd.to_datetime(-, errors="coerce") on one cell (ds.py line 106): NaN
stays NaT; a string parses through the library's date parser `pd` or coerces
to NaT; a number is interpreted as an epoch (unit not modelled); a timestamp
passes through; a boolean coerces to NaT in this model. -/
def to_datetime_cell (pd : String → Option Int) : Cell → Cell
  | none => none
  | some (.str s) => (pd s).map Val.timestamp
  | some (.num q) => some (.timestamp q.num)
  | some (.boolean _) => none
  | some (.timestamp t) => some (.timestamp t)

/-- Column assignment out[c] = f(out[c]), cellwise. -/
def set_col (df : DF) (c : String) (f : Cell → Cell) : DF :=
  match colIdx c df.cols with
  | none => df
  | some j =>
    { df with data := df.data.map (fun r => r.set j (f (r.getD j none))) }

/-- out[desired_cols]: reindex the frame to exactly the given columns. -/
def select_cols (df : DF) (cs : List String) : DF :=
  { cols := cs, data := df.data.map (fun r => cs.map (getCell df.cols r)) }

/-- normalize_products_df (ds.py lines 81-108): copy the input (the input
frame itself is left untouched), append the missing desired columns as None,
parse the lastUpdateDate column when it is object-dtyped (invalid strings
coerce to NaT, never an error - to_datetime with errors="coerce" is total),
and select exactly desired_cols.  `pd` is the pandas timestamp parser,
returning none on an unparsable string. -/
def normalize_products_df (pd : String → Option Int) (df : DF) : DF :=
  let out := add_missing_cols df
  let out2 :=
    if is_object_dtype (col_cells out "lastUpdateDate")
    then set_col out "lastUpdateDate" (to_datetime_cell pd)
    else out
  select_cols out2 desired_cols

/-! ### Helper lemmas about column lookup -/

theorem string_append_cancel_right {s t u : String} (h : s ++ u = t ++ u) : s = t := by
  apply String.ext
  have h2 := congrArg String.data h
  simp only [String.data_append] at h2
  exact List.append_cancel_right h2

theorem prev_ne_current_suffix (c d : String) : c ++ "_prev" ≠ d ++ "_current" := by
  intro h
  have h2 := congrArg (fun s => s.data.getLast?) h
  simp only [String.data_append] at h2
  rw [List.getLast?_append, List.getLast?_append] at h2
  simp at h2

theorem keyCol_ne_prev_suffix (c : String) : keyCol ≠ c ++ "_prev" := by
  intro h
  have h2 := congrArg (fun s => s.data.getLast?) h
  simp only [String.data_append] at h2
  rw [List.getLast?_append] at h2
  simp [keyCol] at h2

theorem keyCol_ne_current_suffix (c : String) : keyCol ≠ c ++ "_current" := by
  intro h
  have h2 := congrArg (fun s => s.data.getLast?) h
  simp only [String.data_append] at h2
  rw [List.getLast?_append] at h2
  simp [keyCol] at h2

theorem colIdx_eq_none (c : String) : ∀ l : List String, colIdx c l = none ↔ c ∉ l := by
  intro l
  induction l with
  | nil => simp [colIdx]
  | cons x xs ih =>
    simp only [colIdx]
    by_cases hx : x = c
    · subst hx; simp
    · rw [if_neg hx]
      simp only [Option.map_eq_none', ih, List.mem_cons]
      have : ¬c = x := fun h => hx h.symm
      simp [this]

theorem colIdx_some (c : String) :
    ∀ (l : List String) (i : Nat), colIdx c l = some i → i < l.length ∧ l[i]? = some c := by
  intro l
  induction l with
  | nil => intro i h; simp [colIdx] at h
  | cons x xs ih =>
    intro i h
    simp only [colIdx] at h
    by_cases hx : x = c
    · rw [if_pos hx] at h
      obtain rfl : (0 : Nat) = i := Option.some.inj h
      exact ⟨Nat.succ_pos _, by simp [hx]⟩
    · rw [if_neg hx] at h
      obtain ⟨j, hj, rfl⟩ := Option.map_eq_some'.mp h
      obtain ⟨h1, h2⟩ := ih j hj
      exact ⟨by simpa using h1, by simpa using h2⟩

theorem colIdx_append_left (c : String) :
    ∀ (l₁ l₂ : List String) (i : Nat), colIdx c l₁ = some i → colIdx c (l₁ ++ l₂) = some i := by
  intro l₁ l₂
  induction l₁ with
  | nil => intro i h; simp [colIdx] at h
  | cons x xs ih =>
    intro i h
    simp only [colIdx] at h
    show (if x = c then some 0 else (colIdx c (xs ++ l₂)).map (· + 1)) = some i
    by_cases hx : x = c
    · rwa [if_pos hx] at h ⊢
    · rw [if_neg hx] at h ⊢
      obtain ⟨j, hj, rfl⟩ := Option.map_eq_some'.mp h
      rw [ih j hj]
      rfl

theorem colIdx_append_right (c : String) :
    ∀ (l₁ l₂ : List String), c ∉ l₁ →
    colIdx c (l₁ ++ l₂) = (colIdx c l₂).map (· + l₁.length) := by
  intro l₁ l₂
  induction l₁ with
  | nil => intro _; simp [colIdx]
  | cons x xs ih =>
    intro h
    have hx : ¬x = c := fun he => h (by simp [he])
    have hxs : c ∉ xs := fun he => h (by simp [he])
    show (if x = c then some 0 else (colIdx c (xs ++ l₂)).map (· + 1))
      = (colIdx c l₂).map (· + (x :: xs).length)
    rw [if_neg hx, ih hxs]
    cases colIdx c l₂ with
    | none => rfl
    | some j =>
      simp only [Option.map_some', List.length_cons]
      exact congrArg some (by omega)

theorem colIdx_map_congr {f : String → String} {c c' : String} :
    ∀ l : List String, (∀ x ∈ l, f x = c' ↔ x = c) → colIdx c' (l.map f) = colIdx c l := by
  intro l
  induction l with
  | nil => intro _; rfl
  | cons x xs ih =>
    intro h
    have hx := h x (by simp)
    simp only [List.map_cons, colIdx]
    by_cases hxc : x = c
    · rw [if_pos (hx.mpr hxc), if_pos hxc]
    · rw [if_neg (fun he => hxc (hx.mp he)), if_neg hxc,
        ih (fun y hy => h y (by simp [hy]))]

theorem colIdx_map_eq_none {f : String → String} {s : String} :
    ∀ l : List String, (∀ x ∈ l, f x ≠ s) → colIdx s (l.map f) = none := by
  intro l h
  rw [colIdx_eq_none]
  intro hmem
  obtain ⟨x, hx, hfx⟩ := List.mem_map.mp hmem
  exact h x hx hfx

theorem getCell_not_mem {cols : List String} {row : List Cell} {c : String}
    (h : c ∉ cols) : getCell cols row c = none := by
  rw [getCell, (colIdx_eq_none c cols).mpr h]

theorem getCell_map_self (g : String → Cell) (c : String) (cs : List String) :
    getCell cs (cs.map g) c = if c ∈ cs then g c else none := by
  cases h : colIdx c cs with
  | none =>
    have hc : c ∉ cs := (colIdx_eq_none c cs).mp h
    simp [getCell, h, hc]
  | some i =>
    obtain ⟨h1, h2⟩ := colIdx_some c cs i h
    have hc : c ∈ cs := List.getElem?_mem h2
    simp [getCell, h, List.getElem?_map, h2, hc]

theorem map_getCell_self :
    ∀ (cs : List String) (r : List Cell), cs.Nodup → r.length = cs.length →
    cs.map (getCell cs r) = r := by
  intro cs
  induction cs with
  | nil =>
    intro r _ hr
    rw [List.length_nil, List.length_eq_zero] at hr
    simp [hr]
  | cons x xs ih =>
    intro r hnd hr
    match r with
    | y :: rs =>
      simp only [List.length_cons, Nat.succ.injEq] at hr
      have hnd1 := List.nodup_cons.mp hnd
      simp only [List.map_cons]
      have hhead : getCell (x :: xs) (y :: rs) x = y := by
        simp [getCell, colIdx]
      rw [hhead]
      have htail : xs.map (getCell (x :: xs) (y :: rs)) = xs.map (getCell xs rs) := by
        refine List.map_congr_left (fun c hc => ?_)
        have hcx : ¬x = c := fun he => hnd1.1 (he ▸ hc)
        simp only [getCell, colIdx, if_neg hcx]
        cases h2 : colIdx c xs with
        | none => rfl
        | some j => simp
      rw [htail, ih rs hnd1.2 hr]

theorem getCell_of_colIdx {cols : List String} {row : List Cell} {c : String} {i : Nat}
    (h : colIdx c cols = some i) : getCell cols row c = row[i]?.getD none := by
  rw [getCell, h]

theorem self_lookup_prev (pc : List String) (l : List Cell) (c : String)
    (hc : c ≠ keyCol) (hwf : l.length = pc.length) :
    getCell (merged_cols pc pc) (merged_row pc pc l (some l)) (c ++ "_prev")
      = getCell pc l c := by
  have hcongr : ∀ x ∈ pc,
      ((if x ≠ keyCol ∧ x ∈ pc then x ++ "_prev" else x) = c ++ "_prev") ↔ x = c := by
    intro x hx
    constructor
    · intro he
      by_cases hk : x = keyCol
      · rw [if_neg (by simp [hk])] at he
        exact absurd (hk ▸ he) (keyCol_ne_prev_suffix c)
      · rw [if_pos ⟨hk, hx⟩] at he
        exact string_append_cancel_right he
    · intro he
      subst he
      rw [if_pos ⟨hc, hx⟩]
  have hA : colIdx (c ++ "_prev")
      (pc.map (fun x => if x ≠ keyCol ∧ x ∈ pc then x ++ "_prev" else x)) = colIdx c pc :=
    colIdx_map_congr pc hcongr
  simp only [merged_cols, merged_row]
  cases h : colIdx c pc with
  | some i =>
    obtain ⟨hi, _⟩ := colIdx_some c pc i h
    rw [getCell_of_colIdx (colIdx_append_left _ _ _ i (hA.trans h)),
      getCell_of_colIdx h, List.getElem?_append_left (by omega)]
  | none =>
    have hnotA : (c ++ "_prev")
        ∉ pc.map (fun x => if x ≠ keyCol ∧ x ∈ pc then x ++ "_prev" else x) :=
      (colIdx_eq_none _ _).mp (hA.trans h)
    have hB : colIdx (c ++ "_prev")
        ((pc.filter (fun c => c != keyCol)).map (fun c => if c ∈ pc then c ++ "_current" else c))
        = none := by
      refine colIdx_map_eq_none _ (fun y hy => ?_)
      rw [if_pos (List.mem_of_mem_filter hy)]
      exact fun he => prev_ne_current_suffix c y he.symm
    rw [getCell, colIdx_append_right _ _ _ hnotA, hB, getCell, h]
    rfl

theorem self_lookup_current (pc : List String) (l : List Cell) (c : String)
    (hc : c ≠ keyCol) (hwf : l.length = pc.length) :
    getCell (merged_cols pc pc) (merged_row pc pc l (some l)) (c ++ "_current")
      = getCell pc l c := by
  have hAnone : colIdx (c ++ "_current")
      (pc.map (fun x => if x ≠ keyCol ∧ x ∈ pc then x ++ "_prev" else x)) = none := by
    refine colIdx_map_eq_none _ (fun x hx => ?_)
    by_cases hk : x = keyCol
    · rw [if_neg (by simp [hk])]
      exact fun he => keyCol_ne_current_suffix c (hk ▸ he)
    · rw [if_pos ⟨hk, hx⟩]
      exact prev_ne_current_suffix x c
  have hnotA := (colIdx_eq_none _ _).mp hAnone
  have hBcongr : ∀ y ∈ pc.filter (fun c => c != keyCol),
      ((if y ∈ pc then y ++ "_current" else y) = c ++ "_current") ↔ y = c := by
    intro y hy
    rw [if_pos (List.mem_of_mem_filter hy)]
    exact ⟨string_append_cancel_right, fun he => he ▸ rfl⟩
  have hB : colIdx (c ++ "_current")
      ((pc.filter (fun c => c != keyCol)).map (fun c => if c ∈ pc then c ++ "_current" else c))
      = colIdx c (pc.filter (fun c => c != keyCol)) :=
    colIdx_map_congr _ hBcongr
  simp only [merged_cols, merged_row]
  rw [getCell, colIdx_append_right _ _ _ hnotA, hB, List.length_map]
  cases h : colIdx c (pc.filter (fun c => c != keyCol)) with
  | some j =>
    obtain ⟨hj, hjv⟩ := colIdx_some _ _ _ h
    show ((l ++ (pc.filter (fun c => c != keyCol)).map (fun c => getCell pc l c))[j + pc.length]?).getD none
      = getCell pc l c
    rw [List.getElem?_append_right (by omega),
      show j + pc.length - l.length = j by omega, List.getElem?_map, hjv]
    rfl
  | none =>
    have hcf : c ∉ pc := by
      intro hcp
      exact ((colIdx_eq_none _ _).mp h)
        (List.mem_filter.mpr ⟨hcp, by simp [hc]⟩)
    rw [getCell_not_mem hcf]
    rfl

theorem cell_changed_self (x : Cell) : cell_changed x x = false := by
  cases x <;> simp [cell_changed]

theorem cell_changed_none_right (p : Cell) : cell_changed p none = !p.isNone := by
  cases p <;> simp [cell_changed]

theorem filterMap_ite_ne_nil {γ : Type} (g : String → γ) (p : String → Bool) :
    ∀ l : List String,
    (l.filterMap (fun c => if p c then some (g c) else none) ≠ []) ↔ ∃ c ∈ l, p c = true := by
  intro l
  induction l with
  | nil => simp
  | cons a as ih =>
    by_cases ha : p a
    · simp [List.filterMap_cons, ha]
    · simp only [List.filterMap_cons, ha, Bool.false_eq_true, if_false, ih, List.mem_cons]
      constructor
      · rintro ⟨c, hc, hpc⟩
        exact ⟨c, Or.inr hc, hpc⟩
      · rintro ⟨c, hc | hc, hpc⟩
        · exact absurd (hc ▸ hpc) (by simpa using ha)
        · exact ⟨c, hc, hpc⟩

theorem row_diffs_changes_ne_nil (cols : List String) (row : List Cell)
    (comparable : List String) :
    (row_diffs cols row comparable).changes ≠ [] ↔
      ∃ c ∈ comparable, cell_changed (getCell cols row (c ++ "_prev"))
        (getCell cols row (c ++ "_current")) = true := by
  simp only [row_diffs]
  exact filterMap_ite_ne_nil
    (fun c => (c, getCell cols row (c ++ "_prev"), getCell cols row (c ++ "_current")))
    (fun c => cell_changed (getCell cols row (c ++ "_prev")) (getCell cols row (c ++ "_current")))
    comparable

theorem filter_key_eq_find {α β : Type} [BEq β] [LawfulBEq β] (f : α → β) (v : β) :
    ∀ xs : List α, (xs.map f).Nodup →
      xs.filter (fun y => f y == v)
        = (match xs.find? (fun y => f y == v) with
           | some x => [x]
           | none => []) := by
  intro xs
  induction xs with
  | nil => intro _; rfl
  | cons a as ih =>
    intro hnd
    have hnd' : f a ∉ as.map f ∧ (as.map f).Nodup := by
      rw [List.map_cons, List.nodup_cons] at hnd; exact hnd
    by_cases ha : (f a == v) = true
    · rw [List.filter_cons, if_pos ha, List.find?_cons, ha]
      have hrest : as.filter (fun y => f y == v) = [] := by
        rw [List.filter_eq_nil_iff]
        intro y hy
        simp only [beq_iff_eq] at ha ⊢
        intro he
        exact hnd'.1 (by rw [ha, ← he]; exact List.mem_map_of_mem f hy)
      rw [hrest]
    · have ha' : (f a == v) = false := by simpa using ha
      rw [List.filter_cons, if_neg ha, List.find?_cons, ha']
      exact ih hnd'.2

theorem coerce_cols (df : DF) : (coerce_product_id df).cols = df.cols := by
  rw [coerce_product_id]
  cases colIdx keyCol df.cols <;> rfl

theorem coerce_wf {df : DF} (h : df.wf) : (coerce_product_id df).wf := by
  rw [coerce_product_id]
  cases hj : colIdx keyCol df.cols with
  | none => exact h
  | some j =>
    intro r hr
    obtain ⟨r0, hr0, rfl⟩ := List.mem_map.mp hr
    simpa using h r0 hr0

/-- The single merged row produced for a left row `l` when the right frame's
key values are pairwise distinct: the pairing with the unique matching right
row (tag both), or the NaN-padded row (tag left_only). -/
def merged_row_for (P C : DF) (l : List Cell) : List Cell × MergeTag :=
  match C.data.find? (fun r => getCell C.cols r keyCol == getCell P.cols l keyCol) with
  | some r => (merged_row P.cols C.cols l (some r), MergeTag.both)
  | none => (merged_row P.cols C.cols l none, MergeTag.left_only)

/-- Shape of the left-merge output when the right frame's key values are
pairwise distinct: each left row yields exactly one merged row. -/
theorem pd_merge_left_data (P C : DF)
    (hnodup : (col_cells C keyCol).Nodup) :
    (pd_merge_left P C).data = P.data.map (merged_row_for P C) := by
  simp only [pd_merge_left]
  have hstep : ∀ l : List Cell,
      (match C.data.filter (fun r => getCell C.cols r keyCol == getCell P.cols l keyCol) with
       | [] => [(merged_row P.cols C.cols l none, MergeTag.left_only)]
       | ms => ms.map (fun r => (merged_row P.cols C.cols l (some r), MergeTag.both)))
      = [merged_row_for P C l] := by
    intro l
    have hfe := filter_key_eq_find (fun r => getCell C.cols r keyCol)
      (getCell P.cols l keyCol) C.data hnodup
    simp only [] at hfe
    rw [hfe, merged_row_for]
    cases C.data.find? (fun r => getCell C.cols r keyCol == getCell P.cols l keyCol) with
    | some r => rfl
    | none => rfl
  induction P.data with
  | nil => rfl
  | cons l ls ih =>
    rw [List.flatMap_cons, List.map_cons, hstep l, ih]
    rfl

theorem merged_row_for_fst_take (P C : DF) (l : List Cell)
    (hwl : l.length = P.cols.length) :
    (merged_row_for P C l).1.take P.cols.length = l := by
  rw [merged_row_for]
  cases C.data.find? (fun r => getCell C.cols r keyCol == getCell P.cols l keyCol) with
  | some r =>
    show (merged_row P.cols C.cols l (some r)).take P.cols.length = l
    rw [merged_row, List.take_left' hwl]
  | none =>
    show (merged_row P.cols C.cols l none).take P.cols.length = l
    rw [merged_row, List.take_left' hwl]

theorem merged_row_for_snd (P C : DF) (l : List Cell) :
    (merged_row_for P C l).2
      = if getCell P.cols l keyCol ∈ col_cells C keyCol
        then MergeTag.both else MergeTag.left_only := by
  rw [merged_row_for]
  cases hf : C.data.find?
      (fun r => getCell C.cols r keyCol == getCell P.cols l keyCol) with
  | some r =>
    have hmem : getCell P.cols l keyCol ∈ col_cells C keyCol := by
      have h1 := List.mem_of_find?_eq_some hf
      have h2 : getCell C.cols r keyCol = getCell P.cols l keyCol := by
        simpa using List.find?_some hf
      exact h2 ▸ List.mem_map_of_mem _ h1
    rw [if_pos hmem]
  | none =>
    have hnomem : getCell P.cols l keyCol ∉ col_cells C keyCol := by
      intro hmem
      obtain ⟨r, hr, hrv⟩ := List.mem_map.mp hmem
      have := List.find?_eq_none.mp hf r hr
      simp [hrv] at this
    rw [if_neg hnomem]

theorem merged_row_for_of_not_mem (P C : DF) (l : List Cell)
    (h : getCell P.cols l keyCol ∉ col_cells C keyCol) :
    merged_row_for P C l = (merged_row P.cols C.cols l none, MergeTag.left_only) := by
  rw [merged_row_for]
  have hf : C.data.find?
      (fun r => getCell C.cols r keyCol == getCell P.cols l keyCol) = none := by
    rw [List.find?_eq_none]
    intro r hr hpred
    have h2 : getCell C.cols r keyCol = getCell P.cols l keyCol := by simpa using hpred
    exact h (h2 ▸ List.mem_map_of_mem _ hr)
  rw [hf]

/-- Tracked-field difference as the specification words it: not both values
null, and either exactly one value null, or both non-null and unequal. -/
def spec_field_difference (p c : Cell) : Prop :=
  ¬(p = none ∧ c = none) ∧
    ((p = none ∧ c ≠ none) ∨ (p ≠ none ∧ c = none) ∨ (p ≠ none ∧ c ≠ none ∧ p ≠ c))

theorem cell_changed_iff_spec (p c : Cell) :
    cell_changed p c = true ↔ spec_field_difference p c := by
  cases p <;> cases c <;> simp [cell_changed, spec_field_difference]

/-- Previous snapshot of the concrete example of claim C5: key "1" with
salePrice 10. -/
def c5Prev : DF :=
  ⟨["productContentId", "salePrice"], [[some (.str "1"), some (.num 10)]]⟩

/-- Current snapshot of the concrete example of claim C5: key "1" with
salePrice 12. -/
def c5Cur : DF :=
  ⟨["productContentId", "salePrice"], [[some (.str "1"), some (.num 12)]]⟩

/-- Claim C5: (1) a joined row enters the change report exactly when some
tracked field differs under the rule: not both null, and (exactly one null,
or both non-null and unequal); (2) reconciling a well-formed,
uniquely-keyed snapshot with an identical copy of itself yields zero changed
rows; (3) previous salePrice 10 against current salePrice 12 under the same
key yields exactly one changed row carrying both values. -/
theorem build_diff_report_rule :
    (∀ (cols : List String) (row : List Cell),
      (row_diffs cols row tracked_cols).changes ≠ [] ↔
        ∃ c ∈ tracked_cols,
          spec_field_difference (getCell cols row (c ++ "_prev"))
            (getCell cols row (c ++ "_current")))
    ∧ (∀ df : DF, keyCol ∈ df.cols → df.wf →
        (col_cells (coerce_product_id df) keyCol).Nodup →
        build_diff_report (smart_merge_prev_current df df).1 = [])
    ∧ build_diff_report (smart_merge_prev_current c5Prev c5Cur).1
        = [⟨some (.str "1"), [("salePrice", some (.num 10), some (.num 12))]⟩] := by
  refine ⟨?_, ?_, by decide⟩
  · intro cols row
    rw [row_diffs_changes_ne_nil]
    simp only [cell_changed_iff_spec]
  · intro df hkey hwf hnodup
    have hres : resolve_key df = some df := by rw [resolve_key, if_pos hkey]
    simp only [smart_merge_prev_current, hres, build_diff_report]
    rw [List.filterMap_eq_nil_iff]
    intro x hx
    have hPwf : (coerce_product_id df).wf := coerce_wf hwf
    rw [pd_merge_left_data (coerce_product_id df) (coerce_product_id df) hnodup] at hx
    obtain ⟨l, hl, rfl⟩ := List.mem_map.mp hx
    have hnodup' : ((coerce_product_id df).data.map
        (fun r => getCell (coerce_product_id df).cols r keyCol)).Nodup := hnodup
    have hfind : (coerce_product_id df).data.find?
        (fun r => getCell (coerce_product_id df).cols r keyCol
          == getCell (coerce_product_id df).cols l keyCol) = some l := by
      have hsome : ((coerce_product_id df).data.find?
          (fun r => getCell (coerce_product_id df).cols r keyCol
            == getCell (coerce_product_id df).cols l keyCol)).isSome := by
        rw [List.find?_isSome]
        exact ⟨l, hl, by simp⟩
      obtain ⟨y, hy⟩ := Option.isSome_iff_exists.mp hsome
      have hymem := List.mem_of_find?_eq_some hy
      have hypred : getCell (coerce_product_id df).cols y keyCol
          = getCell (coerce_product_id df).cols l keyCol := by
        simpa using List.find?_some hy
      have hyl : y = l := List.inj_on_of_nodup_map hnodup' hymem hl hypred
      rw [hy, hyl]
    have hx1 : merged_row_for (coerce_product_id df) (coerce_product_id df) l
        = (merged_row (coerce_product_id df).cols (coerce_product_id df).cols l (some l),
           MergeTag.both) := by
      rw [merged_row_for, hfind]
    have htrk : ∀ c ∈ tracked_cols, c ≠ keyCol := by decide
    have hch : (row_diffs (merged_cols (coerce_product_id df).cols (coerce_product_id df).cols)
        (merged_row (coerce_product_id df).cols (coerce_product_id df).cols l (some l))
        tracked_cols).changes = [] := by
      by_contra hne
      obtain ⟨c, hc, hcc⟩ := (row_diffs_changes_ne_nil _ _ _).mp hne
      have hwl : l.length = (coerce_product_id df).cols.length := hPwf l hl
      rw [self_lookup_prev _ _ _ (htrk c hc) hwl,
        self_lookup_current _ _ _ (htrk c hc) hwl, cell_changed_self] at hcc
      exact Bool.false_ne_true hcc
    rw [hx1, show (pd_merge_left (coerce_product_id df) (coerce_product_id df)).cols
      = merged_cols (coerce_product_id df).cols (coerce_product_id df).cols from rfl]
    simp [hch]

/-- A two-row snapshot used to witness the identical-copy half of C5. -/
def c5SelfDF : DF :=
  ⟨["productContentId", "salePrice"],
   [[some (.str "1"), some (.num 10)], [some (.str "2"), none]]⟩

theorem build_diff_report_rule_witness :
    build_diff_report (smart_merge_prev_current c5SelfDF c5SelfDF).1 = [] :=
  build_diff_report_rule.2.1 c5SelfDF (by decide)
    (by decide : ∀ r ∈ c5SelfDF.data, r.length = c5SelfDF.cols.length)
    (by decide)

/-- Claim C6: with a resolvable previous identity key and unique current
keys, the merge reports no error; every (coerced) previous row is preserved
exactly once, in order, as the left part of one merged row (so current-only
rows are excluded); a merged row is tagged left_only exactly when its key
does not occur among the current keys; and the missing report consists
exactly of the NaN-padded previous rows whose key is absent from current. -/
theorem smart_merge_left_join_and_missing (df_prev df_current p : DF)
    (hres : resolve_key df_prev = some p)
    (hwf : p.wf)
    (hnodup : (col_cells (coerce_product_id df_current) keyCol).Nodup) :
    (smart_merge_prev_current df_prev df_current).2 = none
    ∧ ((smart_merge_prev_current df_prev df_current).1.data.map
        (fun x => x.1.take (coerce_product_id p).cols.length))
      = (coerce_product_id p).data
    ∧ (smart_merge_prev_current df_prev df_current).1.data.map Prod.snd
      = (coerce_product_id p).data.map (fun l =>
          if getCell (coerce_product_id p).cols l keyCol
              ∈ col_cells (coerce_product_id df_current) keyCol
          then MergeTag.both else MergeTag.left_only)
    ∧ missing_df (smart_merge_prev_current df_prev df_current).1
      = ((coerce_product_id p).data.filter (fun l =>
          !(decide (getCell (coerce_product_id p).cols l keyCol
              ∈ col_cells (coerce_product_id df_current) keyCol)))).map
        (fun l => merged_row (coerce_product_id p).cols
          (coerce_product_id df_current).cols l none) := by
  have hPwf : (coerce_product_id p).wf := coerce_wf hwf
  have hdata := pd_merge_left_data (coerce_product_id p) (coerce_product_id df_current) hnodup
  refine ⟨by simp [smart_merge_prev_current, hres], ?_, ?_, ?_⟩
  · simp only [smart_merge_prev_current, hres]
    rw [hdata, List.map_map]
    refine (List.map_congr_left (fun l hl => ?_)).trans (List.map_id _)
    simp only [Function.comp_apply, id_eq]
    exact merged_row_for_fst_take _ _ l (hPwf l hl)
  · simp only [smart_merge_prev_current, hres]
    rw [hdata, List.map_map]
    refine List.map_congr_left (fun l _ => ?_)
    simp only [Function.comp_apply]
    exact merged_row_for_snd _ _ l
  · simp only [smart_merge_prev_current, hres, missing_df]
    rw [hdata, List.filter_map, List.map_map]
    have hfc : ∀ l ∈ (coerce_product_id p).data,
        ((fun (x : List Cell × MergeTag) => x.2 == MergeTag.left_only)
          ∘ merged_row_for (coerce_product_id p) (coerce_product_id df_current)) l
        = !(decide (getCell (coerce_product_id p).cols l keyCol
            ∈ col_cells (coerce_product_id df_current) keyCol)) := by
      intro l _
      simp only [Function.comp_apply, merged_row_for_snd]
      by_cases hm : getCell (coerce_product_id p).cols l keyCol
          ∈ col_cells (coerce_product_id df_current) keyCol
      · simp [hm]
      · simp [hm]
    rw [List.filter_congr hfc]
    refine List.map_congr_left (fun l hl => ?_)
    simp only [Function.comp_apply]
    have hnm : getCell (coerce_product_id p).cols l keyCol
        ∉ col_cells (coerce_product_id df_current) keyCol := by
      simpa using List.of_mem_filter hl
    rw [merged_row_for_of_not_mem _ _ _ hnm]

/-- Previous snapshot of the claim C6 example: keys "1" and "2". -/
def c6Prev : DF :=
  ⟨["productContentId"], [[some (.str "1")], [some (.str "2")]]⟩

/-- Current snapshot of the claim C6 example: key "1" only. -/
def c6Cur : DF := ⟨["productContentId"], [[some (.str "1")]]⟩

theorem smart_merge_left_join_and_missing_witness :
    (smart_merge_prev_current c6Prev c6Cur).2 = none
    ∧ ((smart_merge_prev_current c6Prev c6Cur).1.data.map
        (fun x => x.1.take (coerce_product_id c6Prev).cols.length))
      = (coerce_product_id c6Prev).data
    ∧ (smart_merge_prev_current c6Prev c6Cur).1.data.map Prod.snd
      = (coerce_product_id c6Prev).data.map (fun l =>
          if getCell (coerce_product_id c6Prev).cols l keyCol
              ∈ col_cells (coerce_product_id c6Cur) keyCol
          then MergeTag.both else MergeTag.left_only)
    ∧ missing_df (smart_merge_prev_current c6Prev c6Cur).1
      = ((coerce_product_id c6Prev).data.filter (fun l =>
          !(decide (getCell (coerce_product_id c6Prev).cols l keyCol
              ∈ col_cells (coerce_product_id c6Cur) keyCol)))).map
        (fun l => merged_row (coerce_product_id c6Prev).cols
          (coerce_product_id c6Cur).cols l none) :=
  smart_merge_left_join_and_missing c6Prev c6Cur c6Prev (by decide)
    (by decide : ∀ r ∈ c6Prev.data, r.length = c6Prev.cols.length) (by decide)

theorem leftonly_lookup_prev (pc cc : List String) (l : List Cell) (c : String)
    (hc : c ≠ keyCol) (hwf : l.length = pc.length)
    (h1 : (c ++ "_prev") ∉ pc) (_h2 : (c ++ "_prev") ∉ cc) :
    getCell (merged_cols pc cc) (merged_row pc cc l none) (c ++ "_prev")
      = if c ∈ pc ∧ c ∈ cc then getCell pc l c else none := by
  by_cases hm : c ∈ pc ∧ c ∈ cc
  · have hcongr : ∀ x ∈ pc,
        ((if x ≠ keyCol ∧ x ∈ cc then x ++ "_prev" else x) = c ++ "_prev") ↔ x = c := by
      intro x hx
      constructor
      · intro he
        by_cases hcond : x ≠ keyCol ∧ x ∈ cc
        · rw [if_pos hcond] at he
          exact string_append_cancel_right he
        · rw [if_neg hcond] at he
          exact absurd (he ▸ hx) h1
      · intro he
        subst he
        rw [if_pos ⟨hc, hm.2⟩]
    have hA : colIdx (c ++ "_prev")
        (pc.map (fun x => if x ≠ keyCol ∧ x ∈ cc then x ++ "_prev" else x)) = colIdx c pc :=
      colIdx_map_congr pc hcongr
    simp only [merged_cols, merged_row]
    cases h : colIdx c pc with
    | some i =>
      obtain ⟨hi, _⟩ := colIdx_some c pc i h
      rw [getCell_of_colIdx (colIdx_append_left _ _ _ i (hA.trans h)),
        getCell_of_colIdx h, List.getElem?_append_left (by omega), if_pos hm]
    | none => exact absurd hm.1 ((colIdx_eq_none c pc).mp h)
  · rw [if_neg hm]
    have hAnone : colIdx (c ++ "_prev")
        (pc.map (fun x => if x ≠ keyCol ∧ x ∈ cc then x ++ "_prev" else x)) = none := by
      refine colIdx_map_eq_none _ (fun x hx => ?_)
      by_cases hcond : x ≠ keyCol ∧ x ∈ cc
      · rw [if_pos hcond]
        intro he
        have hxc := string_append_cancel_right he
        subst hxc
        exact hm ⟨hx, hcond.2⟩
      · rw [if_neg hcond]
        intro he
        exact h1 (he ▸ hx)
    have hB : colIdx (c ++ "_prev")
        ((cc.filter (fun c => c != keyCol)).map
          (fun c => if c ∈ pc then c ++ "_current" else c)) = none := by
      refine colIdx_map_eq_none _ (fun y hy => ?_)
      by_cases hyp : y ∈ pc
      · rw [if_pos hyp]
        exact fun he => prev_ne_current_suffix c y he.symm
      · rw [if_neg hyp]
        intro he
        exact _h2 (he ▸ List.mem_of_mem_filter hy)
    simp only [merged_cols, merged_row]
    rw [getCell, colIdx_append_right _ _ _ ((colIdx_eq_none _ _).mp hAnone), hB]
    rfl

theorem leftonly_lookup_current (pc cc : List String) (l : List Cell) (c : String)
    (_hc : c ≠ keyCol) (hwf : l.length = pc.length)
    (h1 : (c ++ "_current") ∉ pc) (_h2 : (c ++ "_current") ∉ cc) :
    getCell (merged_cols pc cc) (merged_row pc cc l none) (c ++ "_current") = none := by
  have hAnone : colIdx (c ++ "_current")
      (pc.map (fun x => if x ≠ keyCol ∧ x ∈ cc then x ++ "_prev" else x)) = none := by
    refine colIdx_map_eq_none _ (fun x hx => ?_)
    by_cases hcond : x ≠ keyCol ∧ x ∈ cc
    · rw [if_pos hcond]
      exact prev_ne_current_suffix x c
    · rw [if_neg hcond]
      intro he
      exact h1 (he ▸ hx)
  simp only [merged_cols, merged_row]
  rw [getCell, colIdx_append_right _ _ _ ((colIdx_eq_none _ _).mp hAnone)]
  cases h : colIdx (c ++ "_current")
      ((cc.filter (fun c => c != keyCol)).map
        (fun c => if c ∈ pc then c ++ "_current" else c)) with
  | none => rfl
  | some j =>
    show ((l ++ (cc.filter (fun c => c != keyCol)).map (fun c =>
        match (none : Option (List Cell)) with
        | none => none
        | some rr => getCell cc rr c))[j
          + (pc.map (fun x => if x ≠ keyCol ∧ x ∈ cc then x ++ "_prev" else x)).length]?).getD
        none = none
    rw [List.getElem?_append_right (by rw [List.length_map]; omega), List.getElem?_map]
    cases (cc.filter (fun c => c != keyCol))[j
      + (pc.map (fun x => if x ≠ keyCol ∧ x ∈ cc then x ++ "_prev" else x)).length
      - l.length]? <;> rfl

/-- Previous snapshot of the C7 counterexample: keys "1", "2" with
barcodes. -/
def c7Prev : DF :=
  ⟨["productContentId", "barcode"],
   [[some (.str "1"), some (.str "A")], [some (.str "2"), some (.str "B")]]⟩

/-- Current snapshot of the C7 counterexample: key "1" only. -/
def c7Cur : DF :=
  ⟨["productContentId", "barcode"], [[some (.str "1"), some (.str "A")]]⟩

/-- Claim C7 counterexample: the record with key "2" exists ONLY in the
previous snapshot - it is the sole row of the missing report (second
conjunct) - and yet it appears in the changed-fields report (first
conjunct), with its barcode paired against NaN, because build_diff_report
iterates over every merged row including the left_only ones. -/
theorem missing_record_appears_in_diff_report :
    build_diff_report (smart_merge_prev_current c7Prev c7Cur).1
      = [⟨some (.str "2"), [("barcode", some (.str "B"), none)]⟩]
    ∧ missing_df (smart_merge_prev_current c7Prev c7Cur).1
      = [[some (.str "2"), some (.str "B"), none]] := by decide

/-- Claim C7 (amended): a previous-only (left_only) merged row DOES appear in
the changed-fields report whenever some tracked field, carried as a column by
both snapshots, is non-null in the previous record; it stays out of the
report exactly when every tracked field is null in the previous record or
missing from one of the two column sets.  (The hypothesis excludes column
sets that already contain literal "_prev"/"_current"-suffixed labels, which
the merge would shadow.) -/
theorem leftonly_row_in_diff_report_iff (pc cc : List String) (l : List Cell)
    (hwf : l.length = pc.length)
    (hclean : ∀ c ∈ tracked_cols, (c ++ "_prev") ∉ pc ∧ (c ++ "_prev") ∉ cc
      ∧ (c ++ "_current") ∉ pc ∧ (c ++ "_current") ∉ cc) :
    (row_diffs (merged_cols pc cc) (merged_row pc cc l none) tracked_cols).changes ≠ []
    ↔ ∃ c ∈ tracked_cols, c ∈ pc ∧ c ∈ cc ∧ getCell pc l c ≠ none := by
  rw [row_diffs_changes_ne_nil]
  have htrk : ∀ c ∈ tracked_cols, c ≠ keyCol := by decide
  constructor
  · rintro ⟨c, hc, hcc⟩
    obtain ⟨hp1, hp2, hc1, hc2⟩ := hclean c hc
    rw [leftonly_lookup_prev pc cc l c (htrk c hc) hwf hp1 hp2,
      leftonly_lookup_current pc cc l c (htrk c hc) hwf hc1 hc2,
      cell_changed_none_right] at hcc
    by_cases hm : c ∈ pc ∧ c ∈ cc
    · rw [if_pos hm] at hcc
      refine ⟨c, hc, hm.1, hm.2, ?_⟩
      intro hnone
      rw [hnone] at hcc
      simp at hcc
    · rw [if_neg hm] at hcc
      simp at hcc
  · rintro ⟨c, hc, hcp, hcc2, hval⟩
    obtain ⟨hp1, hp2, hc1, hc2⟩ := hclean c hc
    refine ⟨c, hc, ?_⟩
    rw [leftonly_lookup_prev pc cc l c (htrk c hc) hwf hp1 hp2,
      leftonly_lookup_current pc cc l c (htrk c hc) hwf hc1 hc2,
      cell_changed_none_right, if_pos ⟨hcp, hcc2⟩]
    cases hval2 : getCell pc l c with
    | none => exact absurd hval2 hval
    | some v => rfl

theorem leftonly_row_in_diff_report_iff_witness :
    (row_diffs (merged_cols ["productContentId", "barcode"] ["productContentId", "barcode"])
      (merged_row ["productContentId", "barcode"] ["productContentId", "barcode"]
        [some (.str "2"), some (.str "B")] none) tracked_cols).changes ≠ []
    ↔ ∃ c ∈ tracked_cols, c ∈ ["productContentId", "barcode"]
        ∧ c ∈ ["productContentId", "barcode"]
        ∧ getCell ["productContentId", "barcode"] [some (.str "2"), some (.str "B")] c ≠ none :=
  leftonly_row_in_diff_report_iff ["productContentId", "barcode"]
    ["productContentId", "barcode"] [some (.str "2"), some (.str "B")]
    (by decide) (by decide)

theorem getCell_append_pad (cols add : List String) (r : List Cell)
    (hr : r.length = cols.length) (c : String) :
    getCell (cols ++ add) (r ++ add.map (fun _ => none)) c = getCell cols r c := by
  cases h : colIdx c cols with
  | some i =>
    obtain ⟨hi, _⟩ := colIdx_some c cols i h
    rw [getCell_of_colIdx (colIdx_append_left _ _ _ i h), getCell_of_colIdx h,
      List.getElem?_append_left (by omega)]
  | none =>
    have hc : c ∉ cols := (colIdx_eq_none c cols).mp h
    rw [getCell, colIdx_append_right _ _ _ hc, getCell, h]
    cases h2 : colIdx c add with
    | none => rfl
    | some j =>
      show ((r ++ add.map (fun _ => none))[j + cols.length]?).getD none = none
      rw [List.getElem?_append_right (by omega),
        show j + cols.length - r.length = j by omega, List.getElem?_map]
      cases add[j]? <;> rfl

theorem getCell_set_row (cols : List String) (c0 : String) (j : Nat)
    (hj : colIdx c0 cols = some j) (f : Cell → Cell) (r : List Cell)
    (hr : r.length = cols.length) (c : String) :
    getCell cols (r.set j (f (r.getD j none))) c
      = if c = c0 then f (getCell cols r c0) else getCell cols r c := by
  obtain ⟨hjl, hjv⟩ := colIdx_some _ _ _ hj
  by_cases hcc : c = c0
  · subst hcc
    rw [if_pos rfl, getCell_of_colIdx hj, getCell_of_colIdx hj,
      List.getElem?_set_self (by omega), List.getD_eq_getElem?_getD]
    rfl
  · rw [if_neg hcc]
    cases h : colIdx c cols with
    | none => rw [getCell, h, getCell, h]
    | some i =>
      have hij : j ≠ i := by
        intro he
        obtain ⟨_, hiv⟩ := colIdx_some _ _ _ h
        rw [← he, hjv] at hiv
        exact hcc (Option.some.inj hiv).symm
      rw [getCell_of_colIdx h, getCell_of_colIdx h, List.getElem?_set_ne hij]

theorem set_col_cols (df : DF) (c : String) (f : Cell → Cell) :
    (set_col df c f).cols = df.cols := by
  rw [set_col]
  cases colIdx c df.cols <;> rfl

theorem set_col_data_of_colIdx {df : DF} {c : String} {j : Nat}
    (h : colIdx c df.cols = some j) (f : Cell → Cell) :
    (set_col df c f).data = df.data.map (fun r => r.set j (f (r.getD j none))) := by
  rw [set_col, h]

theorem colIdx_of_mem {c : String} {l : List String} (h : c ∈ l) :
    ∃ i, colIdx c l = some i := by
  cases hc : colIdx c l with
  | none => exact absurd h ((colIdx_eq_none c l).mp hc)
  | some i => exact ⟨i, rfl⟩

theorem lastUpdateDate_mem_padded (df : DF) :
    "lastUpdateDate" ∈ (add_missing_cols df).cols := by
  simp only [add_missing_cols]
  by_cases h : "lastUpdateDate" ∈ df.cols
  · exact List.mem_append_left _ h
  · refine List.mem_append_right _ ?_
    rw [List.mem_filter]
    exact ⟨by decide, by simp [h]⟩

/-- Row-level description of normalize_products_df on a well-formed frame:
each input row maps to the desired columns, the lastUpdateDate cell being
converted when the padded column is object-dtyped, all other desired cells
copied (null when the input lacked the column). -/
theorem normalize_data (pd : String → Option Int) (df : DF) (hwf : df.wf) :
    (normalize_products_df pd df).data = df.data.map (fun r =>
      desired_cols.map (fun c =>
        if c = "lastUpdateDate"
            ∧ is_object_dtype (col_cells (add_missing_cols df) "lastUpdateDate") = true
        then to_datetime_cell pd (getCell df.cols r "lastUpdateDate")
        else getCell df.cols r c)) := by
  obtain ⟨j, hj⟩ := colIdx_of_mem (lastUpdateDate_mem_padded df)
  have hcolsrfl : (add_missing_cols df).cols
      = df.cols ++ desired_cols.filter (fun c => !(df.cols.contains c)) := rfl
  have hdatarfl : (add_missing_cols df).data
      = df.data.map (fun r =>
          r ++ (desired_cols.filter (fun c => !(df.cols.contains c))).map (fun _ => none)) := rfl
  simp only [normalize_products_df]
  by_cases hdt : is_object_dtype (col_cells (add_missing_cols df) "lastUpdateDate") = true
  · rw [if_pos hdt]
    simp only [select_cols, set_col_cols, set_col_data_of_colIdx hj, List.map_map]
    rw [hdatarfl, List.map_map]
    refine List.map_congr_left (fun r hr => ?_)
    simp only [Function.comp_apply]
    refine List.map_congr_left (fun c _ => ?_)
    have hlen : (r ++ (desired_cols.filter (fun c => !(df.cols.contains c))).map
        (fun _ => none)).length = (add_missing_cols df).cols.length := by
      rw [hcolsrfl]
      simp [hwf r hr]
    rw [getCell_set_row _ _ j hj _ _ hlen c, hcolsrfl,
      getCell_append_pad _ _ _ (hwf r hr) "lastUpdateDate",
      getCell_append_pad _ _ _ (hwf r hr) c]
    by_cases hcl : c = "lastUpdateDate"
    · rw [if_pos hcl, if_pos ⟨hcl, hdt⟩]
    · rw [if_neg hcl, if_neg (fun hand => hcl hand.1)]
  · rw [if_neg hdt]
    simp only [select_cols, List.map_map]
    rw [hdatarfl, List.map_map]
    refine List.map_congr_left (fun r hr => ?_)
    simp only [Function.comp_apply]
    refine List.map_congr_left (fun c _ => ?_)
    rw [hcolsrfl, getCell_append_pad _ _ _ (hwf r hr) c, if_neg (fun hand => hdt hand.2)]

/-- Claim C8: the normalizer's output carries exactly the canonical column
set in its fixed order; a desired field absent from the input is null in
every output row; input fields outside the canonical set are dropped; and a
lastUpdateDate string the date parser cannot parse becomes null - the
embedding of the conversion (to_datetime with errors="coerce") is a total
function, so no error is raised. -/
theorem normalize_schema_total :
    (∀ (pd : String → Option Int) (df : DF),
      (normalize_products_df pd df).cols = desired_cols)
    ∧ (∀ (pd : String → Option Int) (df : DF), df.wf →
        ∀ c ∈ desired_cols, c ∉ df.cols →
        ∀ r ∈ (normalize_products_df pd df).data, getCell desired_cols r c = none)
    ∧ (∀ (pd : String → Option Int) (df : DF) (c : String), c ∉ desired_cols →
        c ∉ (normalize_products_df pd df).cols)
    ∧ (∀ (pd : String → Option Int) (df : DF), df.wf →
        ∀ (i : Nat) (r : List Cell) (s : String),
        df.data[i]? = some r →
        getCell df.cols r "lastUpdateDate" = some (.str s) →
        pd s = none →
        ∃ r2, (normalize_products_df pd df).data[i]? = some r2
          ∧ getCell desired_cols r2 "lastUpdateDate" = none) := by
  refine ⟨fun _ _ => rfl, ?_,
    fun pd df c hc => by
      rw [show (normalize_products_df pd df).cols = desired_cols from rfl]
      exact hc,
    ?_⟩
  · intro pd df hwf c hc hnotin r hr
    rw [normalize_data pd df hwf] at hr
    obtain ⟨r0, _, rfl⟩ := List.mem_map.mp hr
    rw [getCell_map_self, if_pos hc]
    by_cases hcl : c = "lastUpdateDate"
        ∧ is_object_dtype (col_cells (add_missing_cols df) "lastUpdateDate") = true
    · rw [if_pos hcl,
        show getCell df.cols r0 "lastUpdateDate" = none from by
          rw [← hcl.1]; exact getCell_not_mem hnotin]
      rfl
    · rw [if_neg hcl]
      exact getCell_not_mem hnotin
  · intro pd df hwf i r s hir hcell hps
    have hrmem : r ∈ df.data := List.getElem?_mem hir
    have hdt : is_object_dtype (col_cells (add_missing_cols df) "lastUpdateDate") = true := by
      rw [is_object_dtype, List.any_eq_true]
      refine ⟨getCell (add_missing_cols df).cols
        (r ++ (desired_cols.filter (fun c => !(df.cols.contains c))).map (fun _ => none))
        "lastUpdateDate", ?_, ?_⟩
      · simp only [col_cells]
        refine List.mem_map.mpr ⟨_, ?_, rfl⟩
        rw [show (add_missing_cols df).data = df.data.map (fun r =>
          r ++ (desired_cols.filter (fun c => !(df.cols.contains c))).map (fun _ => none))
          from rfl]
        exact List.mem_map_of_mem _ hrmem
      · rw [show (add_missing_cols df).cols
          = df.cols ++ desired_cols.filter (fun c => !(df.cols.contains c)) from rfl,
          getCell_append_pad _ _ _ (hwf r hrmem) _, hcell]
    refine ⟨desired_cols.map (fun c =>
      if c = "lastUpdateDate"
          ∧ is_object_dtype (col_cells (add_missing_cols df) "lastUpdateDate") = true
      then to_datetime_cell pd (getCell df.cols r "lastUpdateDate")
      else getCell df.cols r c), ?_, ?_⟩
    · rw [normalize_data pd df hwf, List.getElem?_map, hir]
      rfl
    · rw [getCell_map_self, if_pos (by decide : "lastUpdateDate" ∈ desired_cols),
        if_pos ⟨rfl, hdt⟩, hcell]
      show (pd s).map Val.timestamp = none
      rw [hps]
      rfl

/-- Date parser of the C8 witness: nothing parses. -/
def c8pd : String → Option Int := fun _ => none

/-- Input frame of the C8 witness: an extra column and an unparsable date. -/
def c8DF : DF :=
  ⟨["title", "junk", "lastUpdateDate"],
   [[some (.str "t"), some (.num 3), some (.str "2024-99-99")]]⟩

theorem normalize_schema_total_witness :
    ∃ r2, (normalize_products_df c8pd c8DF).data[0]? = some r2
      ∧ getCell desired_cols r2 "lastUpdateDate" = none :=
  normalize_schema_total.2.2.2 c8pd c8DF
    (by decide : ∀ r ∈ c8DF.data, r.length = c8DF.cols.length)
    0 [some (.str "t"), some (.num 3), some (.str "2024-99-99")] "2024-99-99"
    (by decide) (by decide) rfl

theorem to_datetime_cell_range (pd : String → Option Int) (x : Cell) :
    to_datetime_cell pd x = none
    ∨ ∃ t, to_datetime_cell pd x = some (.timestamp t) := by
  cases x with
  | none => exact Or.inl rfl
  | some v =>
    cases v with
    | str s =>
      show (pd s).map Val.timestamp = none
        ∨ ∃ t, (pd s).map Val.timestamp = some (.timestamp t)
      cases pd s with
      | none => exact Or.inl rfl
      | some t => exact Or.inr ⟨t, rfl⟩
    | num q => exact Or.inr ⟨q.num, rfl⟩
    | boolean b => exact Or.inl rfl
    | timestamp t => exact Or.inr ⟨t, rfl⟩

/-- Claim C9: the normalizer is idempotent - normalizing an
already-normalized frame is the identity. -/
theorem normalize_idempotent (pd : String → Option Int) (df : DF) (hwf : df.wf) :
    normalize_products_df pd (normalize_products_df pd df)
      = normalize_products_df pd df := by
  have hNcols : (normalize_products_df pd df).cols = desired_cols := rfl
  have hNdata := normalize_data pd df hwf
  have hNwf : (normalize_products_df pd df).wf := by
    intro r hr
    rw [hNdata] at hr
    obtain ⟨r0, _, rfl⟩ := List.mem_map.mp hr
    rw [hNcols, List.length_map]
  have hfilterN : desired_cols.filter
      (fun c => !((normalize_products_df pd df).cols.contains c)) = [] := by
    rw [hNcols]
    decide
  have haddN : add_missing_cols (normalize_products_df pd df)
      = normalize_products_df pd df := by
    simp only [add_missing_cols, hfilterN]
    simp
  have hdtN : is_object_dtype (col_cells
      (add_missing_cols (normalize_products_df pd df)) "lastUpdateDate") = false := by
    rw [haddN, is_object_dtype, List.any_eq_false]
    intro x hx
    simp only [col_cells] at hx
    obtain ⟨row, hrow, rfl⟩ := List.mem_map.mp hx
    rw [hNdata] at hrow
    obtain ⟨r0, hr0, rfl⟩ := List.mem_map.mp hrow
    rw [hNcols, getCell_map_self, if_pos (by decide : "lastUpdateDate" ∈ desired_cols)]
    by_cases hdt1 : is_object_dtype (col_cells (add_missing_cols df) "lastUpdateDate") = true
    · rw [if_pos ⟨rfl, hdt1⟩]
      rcases to_datetime_cell_range pd (getCell df.cols r0 "lastUpdateDate")
        with h | ⟨t, h⟩ <;> rw [h] <;> simp
    · rw [if_neg (fun hand => hdt1 hand.2)]
      have hx2 : getCell df.cols r0 "lastUpdateDate"
          ∈ col_cells (add_missing_cols df) "lastUpdateDate" := by
        simp only [col_cells]
        refine List.mem_map.mpr
          ⟨r0 ++ (desired_cols.filter (fun c => !(df.cols.contains c))).map (fun _ => none),
           ?_, ?_⟩
        · rw [show (add_missing_cols df).data = df.data.map (fun r =>
            r ++ (desired_cols.filter (fun c => !(df.cols.contains c))).map (fun _ => none))
            from rfl]
          exact List.mem_map_of_mem _ hr0
        · rw [show (add_missing_cols df).cols
            = df.cols ++ desired_cols.filter (fun c => !(df.cols.contains c)) from rfl,
            getCell_append_pad _ _ _ (hwf r0 hr0)]
      have hfalse : is_object_dtype
          (col_cells (add_missing_cols df) "lastUpdateDate") = false :=
        Bool.eq_false_iff.mpr hdt1
      rw [is_object_dtype, List.any_eq_false] at hfalse
      exact hfalse _ hx2
  have h2 : (normalize_products_df pd (normalize_products_df pd df)).data
      = (normalize_products_df pd df).data := by
    rw [normalize_data pd (normalize_products_df pd df) hNwf]
    refine (List.map_congr_left (fun r hr => ?_)).trans (List.map_id _)
    have hmapfix : ∀ c ∈ desired_cols,
        (if c = "lastUpdateDate"
            ∧ is_object_dtype (col_cells
              (add_missing_cols (normalize_products_df pd df)) "lastUpdateDate") = true
        then to_datetime_cell pd
          (getCell (normalize_products_df pd df).cols r "lastUpdateDate")
        else getCell (normalize_products_df pd df).cols r c)
        = getCell (normalize_products_df pd df).cols r c := by
      intro c _
      rw [if_neg (fun hand => by rw [hdtN] at hand; exact Bool.false_ne_true hand.2)]
    show desired_cols.map _ = id r
    rw [List.map_congr_left hmapfix, hNcols,
      map_getCell_self desired_cols r (by decide)
        (by have := hNwf r hr; rwa [hNcols] at this)]
    rfl
  calc normalize_products_df pd (normalize_products_df pd df)
      = DF.mk (normalize_products_df pd (normalize_products_df pd df)).cols
          (normalize_products_df pd (normalize_products_df pd df)).data := rfl
    _ = DF.mk (normalize_products_df pd df).cols (normalize_products_df pd df).data := by
        rw [h2]
        rw [show (normalize_products_df pd (normalize_products_df pd df)).cols
          = desired_cols from rfl, hNcols]
    _ = normalize_products_df pd df := rfl

theorem normalize_idempotent_witness :
    normalize_products_df c8pd (normalize_products_df c8pd c8DF)
      = normalize_products_df c8pd c8DF :=
  normalize_idempotent c8pd c8DF
    (by decide : ∀ r ∈ c8DF.data, r.length = c8DF.cols.length)

theorem set_getElem_self {α : Type} :
    ∀ (r : List α) (j : Nat) (v : α), r[j]? = some v → r.set j v = r := by
  intro r
  induction r with
  | nil => intro j v h; simp at h
  | cons x xs ih =>
    intro j v h
    cases j with
    | zero =>
      simp only [List.getElem?_cons_zero, Option.some.injEq] at h
      rw [List.set_cons_zero, h]
    | succ j =>
      simp only [List.getElem?_cons_succ] at h
      rw [List.set_cons_succ, ih j v h]

/-- Value-level fixed point of the key coercion: when every key cell already
holds a (non-null) string, astype(str) rewrites each cell to itself. -/
theorem coerce_product_id_id (df : DF)
    (h : ∀ r ∈ df.data, ∃ s, getCell df.cols r keyCol = some (.str s)) :
    coerce_product_id df = df := by
  rw [coerce_product_id]
  cases hj : colIdx keyCol df.cols with
  | none => rfl
  | some j =>
    have hdata : df.data.map
        (fun r => r.set j (astype_str_cell (r.getD j none))) = df.data := by
      refine (List.map_congr_left fun r hr => ?_).trans (List.map_id _)
      obtain ⟨s, hs⟩ := h r hr
      have hv : r[j]? = some (some (.str s)) := by
        rw [getCell_of_colIdx hj] at hs
        cases hrj : r[j]? with
        | none => rw [hrj] at hs; simp at hs
        | some c =>
          rw [hrj] at hs
          simp only [Option.getD_some] at hs
          rw [hs]
      have hgd : r.getD j none = some (.str s) := by
        rw [List.getD_eq_getElem?_getD, hv]
        rfl
      show r.set j (astype_str_cell (r.getD j none)) = id r
      rw [hgd, show astype_str_cell (some (.str s)) = some (.str s) from rfl,
        set_getElem_self r j _ hv]
      rfl
    calc DF.mk df.cols (df.data.map
          (fun r => r.set j (astype_str_cell (r.getD j none))))
        = DF.mk df.cols df.data := by rw [hdata]
      _ = df := rfl

/-- A previous snapshot holding its key under a numeric cell: the coercion
rewrites the cell to the string "7". -/
def c10DF : DF := ⟨["productContentId"], [[some (.num 7)]]⟩

/-- Claim C10 counterexample: smart_merge_prev_current does NOT leave its
input snapshots unchanged - the in-place column assignment of
coerce_product_id (ds.py line 115) rewrites the caller's frames: after the
call both the previous and the current argument frame differ from their
original value (their key column now holds the string "7" instead of the
number 7). -/
theorem coercion_mutates_input :
    (smart_merge_effects c10DF c10DF).1 ≠ c10DF
    ∧ (smart_merge_effects c10DF c10DF).2 ≠ c10DF := by decide

/-- Claim C10 (amended): normalization copies its input (ds.py line 98) and
the merge builds a new frame, but coerce_product_id assigns the stringified
key column into its argument in place, so smart_merge_prev_current mutates
any argument frame carrying the productContentId column.  What remains true:
a previous frame whose key is resolved through a synonym (or not at all) is
left unchanged, because the rename of line 139 copies before the coercion
runs; and the coercion is value-invisible on a frame whose key cells are
already non-null strings. -/
theorem mutation_effects :
    (∀ df_prev df_current : DF, keyCol ∉ df_prev.cols →
      (smart_merge_effects df_prev df_current).1 = df_prev)
    ∧ (∀ df : DF, (∀ r ∈ df.data, ∃ s, getCell df.cols r keyCol = some (.str s)) →
        coerce_product_id df = df) := by
  constructor
  · intro dp dc h
    rw [smart_merge_effects]
    cases resolve_key dp with
    | none => rfl
    | some p =>
      show (if keyCol ∈ dp.cols then coerce_product_id dp else dp) = dp
      rw [if_neg h]
  · intro df h
    exact coerce_product_id_id df h

/-- A previous snapshot whose key sits under the synonym contentId. -/
def c10SynDF : DF := ⟨["contentId"], [[some (.num 7)]]⟩

/-- A frame whose key cells are already strings. -/
def c10StrDF : DF := ⟨["productContentId"], [[some (.str "7")]]⟩

theorem mutation_effects_witness :
    (smart_merge_effects c10SynDF c10StrDF).1 = c10SynDF
    ∧ coerce_product_id c10StrDF = c10StrDF :=
  ⟨mutation_effects.1 c10SynDF c10StrDF (by decide),
   mutation_effects.2 c10StrDF (by
    intro r hr
    rw [show c10StrDF.data = [[some (.str "7")]] from rfl, List.mem_singleton] at hr
    subst hr
    exact ⟨"7", rfl⟩)⟩
